import Mathlib

/-!
Verification of the offline-first synchronization engine of the
agroclash platform.

The definitions below are a shallow embedding of the TypeScript classes
`BaseOfflineService` (src/lib/services/monitoring/api-monitor.ts) and
`MockOfflineService` (the mock offline service source file).  Pure
methods become Lean functions; the mutable instance state
(`storage`, `actionQueue`, `syncInProgress`, `isOnlineStatus`) becomes an
explicit `OfflineState` record threaded through the operations.
Timestamps (`Date.now()`) and generated ids (`generateId()`) are impure in
the source, so they are passed as explicit parameters.  The random remote
outcome of `processAction` (which either resolves or throws an error) is
modelled by an oracle `ok : OfflineAction → Option String`, where `none`
means the remote call succeeded and `some msg` means it threw the error
message `msg`.
-/

/-- A queued offline action, mirroring the `OfflineAction` interface:
`id`, `timestamp`, `type` (create/update/delete), `entity`, `entityId`,
an opaque serialisable payload, the `synced` flag and `retryCount`. -/
structure OfflineAction where
  id : String
  timestamp : Nat
  type : String
  entity : String
  entityId : String
  payload : String
  synced : Bool
  retryCount : Nat
deriving Repr, DecidableEq

/-- The caller-supplied part of an action passed to `queueAction`
(`Omit<OfflineAction, 'id' | 'timestamp' | 'synced' | 'retryCount'>`). -/
structure ActionInput where
  type : String
  entity : String
  entityId : String
  payload : String
deriving Repr, DecidableEq

/-- A value held in the durable store.  The source serialises every value
with `compressData` (= `JSON.stringify`); since that serialisation is
injective on the values the engine actually stores, we keep the values
structured: the action queue blob and the last-sync timestamp blob. -/
inductive StoredValue where
  | queueData : List OfflineAction → StoredValue
  | timeData : Nat → StoredValue
deriving Repr, DecidableEq

/-- The durable store: an association list from storage key to stored
value, mirroring the `Map<string, any>` held by `MockOfflineService`
(newer writes replace the entry for the same key). -/
abbrev Storage := List (String × StoredValue)

/-- Insert-or-replace for the storage map (`Map.set`). -/
def storageSet (key : String) (v : StoredValue) : Storage → Storage
  | [] => [(key, v)]
  | (k, w) :: rest =>
      if k = key then (key, v) :: rest else (k, w) :: storageSet key v rest

/-- Lookup in the storage map (`Map.get`). -/
def storageGet (key : String) : Storage → Option StoredValue
  | [] => none
  | (k, w) :: rest => if k = key then some w else storageGet key rest

/-- The storage key used by `storeData`: the `agroclash_offline_` string
prepended to the logical key. -/
def storageKeyFor (key : String) : String := "agroclash_offline_" ++ key

/-- The mutable state of a `MockOfflineService` instance: the in-memory
durable store mirror, the action queue, and the two flags inherited from
`BaseOfflineService`. -/
structure OfflineState where
  storage : Storage
  actionQueue : List OfflineAction
  syncInProgress : Bool
  isOnlineStatus : Bool
deriving Repr, DecidableEq

/-- `storeData(key, data)`: writes the compressed value under the
prefixed key into the store. -/
def storeData (key : String) (v : StoredValue) (s : OfflineState) : OfflineState :=
  { s with storage := storageSet (storageKeyFor key) v s.storage }

/-- Updates the first list element satisfying `p` with `f`, mirroring the
TypeScript pattern `findIndex` followed by a mutation at that index. -/
def updateFirst (p : α → Bool) (f : α → α) : List α → List α
  | [] => []
  | a :: as => if p a then f a :: as else a :: updateFirst p f as

/-- Removes the first list element satisfying `p`, mirroring `findIndex`
followed by `splice(index, 1)`. -/
def removeFirst (p : α → Bool) : List α → List α
  | [] => []
  | a :: as => if p a then as else a :: removeFirst p as

/-- `markActionSynced(actionId)`: if an action with this id is in the
queue, set its `synced` flag and persist the queue; otherwise do
nothing. -/
def markActionSynced (actionId : String) (s : OfflineState) : OfflineState :=
  if s.actionQueue.any (fun a => a.id == actionId) then
    let q := updateFirst (fun a => a.id == actionId) (fun a => { a with synced := true }) s.actionQueue
    storeData "actionQueue" (.queueData q) { s with actionQueue := q }
  else s

/-- `removeAction(actionId)`: if an action with this id is in the queue,
splice it out and persist the queue; otherwise do nothing. -/
def removeAction (actionId : String) (s : OfflineState) : OfflineState :=
  if s.actionQueue.any (fun a => a.id == actionId) then
    let q := removeFirst (fun a => a.id == actionId) s.actionQueue
    storeData "actionQueue" (.queueData q) { s with actionQueue := q }
  else s

/-- `queueAction(action)`: builds the full `OfflineAction` with a fresh
id (`generateId()`, passed here as `newId`), `timestamp = Date.now()`
(passed as `now`), `synced = false` and `retryCount = 0`, pushes it at
the tail of the queue and persists the queue.  The source method has
return type `Promise<void>` and resolves with `undefined`; the second
component of the result models the value the promise resolves with,
which is therefore `none` (never an action id).  The deferred
`setTimeout(() => this.syncData(), 100)` that the method may schedule
runs only after the method has completed, so it is not part of this
state transition. -/
def queueAction (inp : ActionInput) (newId : String) (now : Nat) (s : OfflineState) :
    OfflineState × Option String :=
  let qa : OfflineAction :=
    { id := newId, timestamp := now, synced := false, retryCount := 0,
      type := inp.type, entity := inp.entity, entityId := inp.entityId,
      payload := inp.payload }
  let q := s.actionQueue ++ [qa]
  (storeData "actionQueue" (.queueData q) { s with actionQueue := q }, none)

/-- The error string pushed when `processAction(action)` throws `msg`:
`Failed to sync $\x7baction.type\x7d $\x7baction.entity\x7d: $\x7berror\x7d`. -/
def failMsg (a : OfflineAction) (msg : String) : String :=
  "Failed to sync " ++ a.type ++ " " ++ a.entity ++ ": " ++ msg

/-- The error string pushed when an action is dropped:
`Action $\x7baction.id\x7d removed after 3 failed attempts`. -/
def dropMsg (a : OfflineAction) : String :=
  "Action " ++ a.id ++ " removed after 3 failed attempts"

/-- The result object returned by `syncData`. -/
structure SyncResult where
  success : Bool
  syncedActions : Nat
  errors : List String
deriving Repr, DecidableEq

/-- One iteration of the drain loop of `syncData`, acting on the
accumulator (current state, `syncedActions` counter, `errors` list,
trace of actions submitted to `processAction`).  The loop body first
calls `processAction action` (so every iteration submits its action:
the trace grows unconditionally); on success it calls
`markActionSynced(action.id)` and increments the counter; on failure it
pushes the failure message, increments `action.retryCount` (an aliased
mutation of the queue entry, rendered here as an update of the first
queue entry with this id) and, if the new count has reached 3, removes
the action and pushes the drop message. -/
def syncStep (ok : OfflineAction → Option String)
    (acc : OfflineState × Nat × List String × List OfflineAction)
    (a : OfflineAction) : OfflineState × Nat × List String × List OfflineAction :=
  let s := acc.1
  let n := acc.2.1
  let errs := acc.2.2.1
  let subs := acc.2.2.2 ++ [a]
  match ok a with
  | none => (markActionSynced a.id s, n + 1, errs, subs)
  | some msg =>
      let errs := errs ++ [failMsg a msg]
      let s := { s with
        actionQueue := updateFirst (fun b => b.id == a.id)
          (fun b => { b with retryCount := b.retryCount + 1 }) s.actionQueue }
      if a.retryCount + 1 ≥ 3 then
        (removeAction a.id s, n, errs ++ [dropMsg a], subs)
      else
        (s, n, errs, subs)

/-- `syncData()`: one synchronization pass.  Guards first (`syncInProgress`,
then `isOnline()`), then sets the in-progress flag, drains the snapshot
of unsynced actions in order, stores the last-sync time, prunes synced
actions from the queue, persists the pruned queue, clears the flag and
returns the result.  The third component of the returned triple is the
instrumentation trace of the actions submitted to `processAction`
during the pass (empty on the early-return paths, where no drain
starts); it is not a value the source returns, only a record of the
remote calls the pass made. -/
def syncData (ok : OfflineAction → Option String) (now : Nat) (s : OfflineState) :
    OfflineState × SyncResult × List OfflineAction :=
  if s.syncInProgress then
    (s, { success := false, syncedActions := 0, errors := ["Sync already in progress"] }, [])
  else if !s.isOnlineStatus then
    (s, { success := false, syncedActions := 0, errors := ["Device is offline"] }, [])
  else
    let s1 := { s with syncInProgress := true }
    let unsynced := s1.actionQueue.filter (fun a => !a.synced)
    let r := unsynced.foldl (syncStep ok) (s1, 0, [], [])
    let s2 := r.1
    let n := r.2.1
    let errs := r.2.2.1
    let subs := r.2.2.2
    let s3 := storeData "lastSync" (.timeData now) s2
    let q := s3.actionQueue.filter (fun a => !a.synced)
    let s4 := storeData "actionQueue" (.queueData q) { s3 with actionQueue := q }
    let s5 := { s4 with syncInProgress := false }
    (s5, { success := errs.isEmpty, syncedActions := n, errors := errs }, subs)

/-- Runs a sequence of `syncData` passes, each with its own remote
oracle and clock reading, keeping only the final state. -/
def runPasses : List ((OfflineAction → Option String) × Nat) → OfflineState → OfflineState
  | [], s => s
  | (ok, now) :: rest, s => runPasses rest (syncData ok now s).1

/-- A record participating in conflict resolution.  The source works on
untyped objects; the engine inspects only `id` and `updated_at`, so we
model those two fields explicitly (as `Option`, `none` standing for a
missing/falsy property) and keep the remaining properties as an
association list so that the object-spread semantics of the merge branch
can be expressed.  `updated_at` is a date string in the source, compared
through `new Date(x).getTime()`; we model the present-and-comparable
case as `some t` with `t` the epoch value. -/
structure EntityRecord where
  id : Option String
  updated_at : Option Nat
  fields : List (String × String)
deriving Repr, DecidableEq

/-- JavaScript `localId || serverId` on the id property: the left value
is used when it is truthy (present and non-empty), otherwise the right
one. -/
def jsOrId (l r : Option String) : Option String :=
  match l with
  | some v => if v = "" then r else some v
  | none => r

/-- Property lookup in the association-list part of a record. -/
def lookupField (k : String) : List (String × String) → Option String
  | [] => none
  | (k2, v) :: rest => if k2 = k then some v else lookupField k rest

/-- The object spread `\x7b...local, ...server\x7d` on the plain
properties: local keys come first (their value overridden by the server
value when the server also has the key), followed by the server-only
keys. -/
def mergeFields (l srv : List (String × String)) : List (String × String) :=
  (l.map (fun p => match lookupField p.1 srv with
    | some v => (p.1, v)
    | none => p)) ++ srv.filter (fun p => (lookupField p.1 l).isNone)

/-- `resolveConflicts(localData, serverData)`: if one side is
null/undefined the other is returned; if both carry truthy `updated_at`
timestamps the strictly newer side is returned (server on ties);
otherwise the result is `\x7b...localData, ...serverData,
id: localData.id || serverData.id\x7d`. -/
def resolveConflicts (localData serverData : Option EntityRecord) : Option EntityRecord :=
  match localData with
  | none => serverData
  | some l =>
    match serverData with
    | none => some l
    | some srv =>
      match l.updated_at, srv.updated_at with
      | some localTime, some serverTime =>
          if localTime > serverTime then some l else some srv
      | _, _ =>
          some { id := jsOrId l.id srv.id,
                 updated_at := match srv.updated_at with
                   | some t => some t
                   | none => l.updated_at,
                 fields := mergeFields l.fields srv.fields }

/-- The observable outcome of invoking one network-status callback: a
callback either returns normally (`Except.ok`) or throws
(`Except.error`); the engine catches the throw and logs it, so the
caught message is the recorded outcome. -/
def cbOutcome (isOnline : Bool) (cb : Bool → Except String Unit) : Option String :=
  match cb isOnline with
  | .ok _ => none
  | .error e => some e

/-- `notifyNetworkChange(isOnline)` of `BaseOfflineService`: iterates the
registered callbacks in order (`Set.forEach` iterates in insertion
order), invoking each inside its own try/catch so a throwing callback is
logged and the iteration continues.  The function returns the trace of
per-callback outcomes in iteration order; the source method itself
returns nothing and never propagates a callback exception, which is
reflected here by the function being total. -/
def notifyNetworkChange (isOnline : Bool) : List (Bool → Except String Unit) → List (Option String)
  | [] => []
  | cb :: rest => cbOutcome isOnline cb :: notifyNetworkChange isOnline rest

/-!
Derived characterizations of one drain pass.  These definitions are not
translations of source code; they are closed forms for the observable
effect of `syncData`, proved equal to the embedded code below
(`drainLoop_char`, `syncData_run`) and then used to state the claims.
-/

/-- What one drain-loop iteration does to the (unique) queue entry it
processes: success marks it synced; failure bumps its retry counter,
removing it once the counter reaches 3. -/
def loopEntry (ok : OfflineAction → Option String) (b : OfflineAction) : Option OfflineAction :=
  match ok b with
  | none => some { b with synced := true }
  | some _ =>
      if b.retryCount + 1 ≥ 3 then none
      else some { b with retryCount := b.retryCount + 1 }

/-- The error strings one drain-loop iteration appends for the action it
processes. -/
def errsOf (ok : OfflineAction → Option String) (b : OfflineAction) : List String :=
  match ok b with
  | none => []
  | some msg => [failMsg b msg] ++ (if b.retryCount + 1 ≥ 3 then [dropMsg b] else [])

/-- The fate of a queue entry across a whole pass (drain loop followed by
the pruning of synced actions): already-synced entries and successfully
synced entries are pruned, thrice-failed entries are dropped, and
entries that failed with a retry budget left survive with the bumped
counter. -/
def drainEntry (ok : OfflineAction → Option String) (b : OfflineAction) : Option OfflineAction :=
  if b.synced then none
  else match ok b with
    | none => none
    | some _ =>
        if b.retryCount + 1 ≥ 3 then none
        else some { b with retryCount := b.retryCount + 1 }

/-- The error list produced by one pass over queue `q`. -/
def passErrors (ok : OfflineAction → Option String) (q : List OfflineAction) : List String :=
  (q.filter (fun a => !a.synced)).flatMap (errsOf ok)

/-- The `syncedActions` counter produced by one pass over queue `q`. -/
def passSynced (ok : OfflineAction → Option String) (q : List OfflineAction) : Nat :=
  ((q.filter (fun a => !a.synced)).filter (fun t => (ok t).isNone)).length

/-- `updateFirst` with an id-keyed predicate acts pointwise when the ids
in the list are pairwise distinct. -/
theorem updateFirst_id_eq_map (i : String) (f : OfflineAction → OfflineAction)
    (l : List OfflineAction) (hnd : (l.map (fun a => a.id)).Nodup) :
    updateFirst (fun a => a.id == i) f l
      = l.map (fun a => if a.id == i then f a else a) := by
  induction l with
  | nil => rfl
  | cons a as ih =>
    simp only [List.map_cons, List.nodup_cons, List.mem_map] at hnd
    by_cases h : a.id = i
    · have hall : ∀ b ∈ as, (if (b.id == i) = true then f b else b) = b := by
        intro b hb
        have hne : ¬b.id = i := fun hbi => hnd.1 ⟨b, hb, hbi.trans h.symm⟩
        simp [hne]
      have h2 : (a.id == i) = true := beq_iff_eq.mpr h
      simp only [updateFirst, h2, if_true, List.map_cons]
      rw [List.map_congr_left hall]
      simp
    · have h2 : (a.id == i) = false := by simp [h]
      simp only [updateFirst, h2, Bool.false_eq_true, if_false, List.map_cons, ih hnd.2]

/-- `removeFirst` with an id-keyed predicate equals `filter` when the ids
in the list are pairwise distinct. -/
theorem removeFirst_id_eq_filter (i : String) (l : List OfflineAction)
    (hnd : (l.map (fun a => a.id)).Nodup) :
    removeFirst (fun a => a.id == i) l = l.filter (fun a => !(a.id == i)) := by
  induction l with
  | nil => rfl
  | cons a as ih =>
    simp only [List.map_cons, List.nodup_cons, List.mem_map] at hnd
    by_cases h : a.id = i
    · have hall : ∀ b ∈ as, (!(b.id == i)) = true := by
        intro b hb
        have hne : ¬b.id = i := fun hbi => hnd.1 ⟨b, hb, hbi.trans h.symm⟩
        simp [hne]
      have h2 : (a.id == i) = true := beq_iff_eq.mpr h
      simp only [removeFirst, h2, if_true, List.filter_cons, Bool.not_true,
        Bool.false_eq_true, if_false]
      exact (List.filter_eq_self.mpr hall).symm
    · have h2 : (a.id == i) = false := by simp [h]
      simp only [removeFirst, h2, Bool.false_eq_true, if_false, List.filter_cons,
        Bool.not_false, if_true, ih hnd.2]

/-- Two entries of a queue with pairwise distinct ids and the same id are
the same entry. -/
theorem eq_of_mem_id_nodup {q : List OfflineAction} {x y : OfflineAction}
    (hnd : (q.map (fun a => a.id)).Nodup) (hx : x ∈ q) (hy : y ∈ q)
    (h : x.id = y.id) : x = y :=
  List.inj_on_of_nodup_map hnd hx hy h

/-- A `filterMap` whose function preserves the id of kept entries yields
an id list that is a sublist of the original one. -/
theorem filterMap_ids_sublist (F : OfflineAction → Option OfflineAction) (l : List OfflineAction)
    (hF : ∀ b c, F b = some c → c.id = b.id) :
    List.Sublist ((l.filterMap F).map (fun a => a.id)) (l.map (fun a => a.id)) := by
  induction l with
  | nil => simp
  | cons a as ih =>
    simp only [List.filterMap_cons]
    cases hFa : F a with
    | none => exact (ih).trans (List.sublist_cons_self _ _)
    | some c =>
        simp only [List.map_cons, hF a c hFa]
        exact List.Sublist.cons₂ _ ih

/-- `filter` as a `filterMap`. -/
theorem filter_eq_filterMap_if {α : Type} (p : α → Bool) (l : List α) :
    l.filter p = l.filterMap (fun a => if p a then some a else none) := by
  induction l with
  | nil => rfl
  | cons a as ih =>
      by_cases h : p a <;> simp [List.filter_cons, List.filterMap_cons, h, ih]

/-- `map` as a `filterMap`. -/
theorem map_eq_filterMap_some {α β : Type} (f : α → β) (l : List α) :
    l.map f = l.filterMap (fun a => some (f a)) := by
  induction l with
  | nil => rfl
  | cons a as ih => simp [List.filterMap_cons, ih]

/-- An entry of the queue makes the id-keyed `any` test succeed. -/
theorem any_id_of_mem {q : List OfflineAction} {t : OfflineAction} (ht : t ∈ q) :
    q.any (fun a => a.id == t.id) = true :=
  List.any_eq_true.mpr ⟨t, ht, by simp⟩

/-- `markActionSynced` only touches the queue and the store. -/
theorem markActionSynced_flags (i : String) (s : OfflineState) :
    (markActionSynced i s).syncInProgress = s.syncInProgress
      ∧ (markActionSynced i s).isOnlineStatus = s.isOnlineStatus := by
  unfold markActionSynced storeData
  split <;> simp

/-- `removeAction` only touches the queue and the store. -/
theorem removeAction_flags (i : String) (s : OfflineState) :
    (removeAction i s).syncInProgress = s.syncInProgress
      ∧ (removeAction i s).isOnlineStatus = s.isOnlineStatus := by
  unfold removeAction storeData
  split <;> simp

/-- Effect of one drain-loop iteration on a state whose queue has
pairwise distinct ids, for an entry `t` of that queue: the entry is
rewritten according to `loopEntry`, every other entry is untouched, and
the accumulators grow by exactly this iteration's contribution. -/
theorem syncStep_char (ok : OfflineAction → Option String) (s : OfflineState)
    (t : OfflineAction) (n : Nat) (errs : List String) (subs : List OfflineAction)
    (hnd : (s.actionQueue.map (fun a => a.id)).Nodup) (ht : t ∈ s.actionQueue) :
    (syncStep ok (s, n, errs, subs) t).1.actionQueue
        = s.actionQueue.filterMap (fun b => if t.id == b.id then loopEntry ok b else some b)
      ∧ (syncStep ok (s, n, errs, subs) t).2.1 = n + (if (ok t).isNone then 1 else 0)
      ∧ (syncStep ok (s, n, errs, subs) t).2.2.1 = errs ++ errsOf ok t
      ∧ (syncStep ok (s, n, errs, subs) t).2.2.2 = subs ++ [t]
      ∧ (syncStep ok (s, n, errs, subs) t).1.syncInProgress = s.syncInProgress
      ∧ (syncStep ok (s, n, errs, subs) t).1.isOnlineStatus = s.isOnlineStatus := by
  have hne2 : ∀ b : OfflineAction, ¬b.id = t.id → (t.id == b.id) = false := by
    intro b hbid
    simp only [beq_eq_false_iff_ne, ne_eq]
    exact fun h => hbid h.symm
  cases hok : ok t with
  | none =>
      have hstep : syncStep ok (s, n, errs, subs) t
          = (markActionSynced t.id s, n + 1, errs, subs ++ [t]) := by
        simp only [syncStep, hok]
      rw [hstep]
      have hq : (markActionSynced t.id s).actionQueue
          = s.actionQueue.map (fun a => if a.id == t.id then { a with synced := true } else a) := by
        simp only [markActionSynced, any_id_of_mem ht, if_true, storeData]
        exact updateFirst_id_eq_map t.id _ s.actionQueue hnd
      have hq2 : s.actionQueue.map (fun a => if a.id == t.id then { a with synced := true } else a)
          = s.actionQueue.filterMap (fun b => if t.id == b.id then loopEntry ok b else some b) := by
        rw [map_eq_filterMap_some]
        apply List.filterMap_congr
        intro b hb
        by_cases hbid : b.id = t.id
        · have hbt : b = t := eq_of_mem_id_nodup hnd hb ht hbid
          subst hbt
          simp [loopEntry, hok]
        · have h1 : (b.id == t.id) = false := by simp [hbid]
          simp [h1, hne2 b hbid]
      exact ⟨hq.trans hq2, by simp [hok], by simp [errsOf, hok], rfl,
        (markActionSynced_flags t.id s).1, (markActionSynced_flags t.id s).2⟩
  | some msg =>
      have hq1 : (updateFirst (fun b => b.id == t.id)
            (fun b => { b with retryCount := b.retryCount + 1 }) s.actionQueue)
          = s.actionQueue.map
              (fun a => if a.id == t.id then { a with retryCount := a.retryCount + 1 } else a) :=
        updateFirst_id_eq_map t.id _ s.actionQueue hnd
      by_cases hr : t.retryCount + 1 ≥ 3
      · have hstep : syncStep ok (s, n, errs, subs) t = (removeAction t.id { s with actionQueue := updateFirst (fun b => b.id == t.id) (fun b => { b with retryCount := b.retryCount + 1 }) s.actionQueue }, n, (errs ++ [failMsg t msg]) ++ [dropMsg t], subs ++ [t]) := by
          simp only [syncStep, hok, hr, if_true]
        rw [hstep]
        have hids : (s.actionQueue.map
              (fun a => if a.id == t.id then { a with retryCount := a.retryCount + 1 } else a)).map
                (fun a => a.id)
            = s.actionQueue.map (fun a => a.id) := by
          rw [List.map_map]
          apply List.map_congr_left
          intro b _
          simp only [Function.comp]
          cases h : (b.id == t.id) <;> simp [h]
        have hnd1 : ((s.actionQueue.map
              (fun a => if a.id == t.id then { a with retryCount := a.retryCount + 1 } else a)).map
                (fun a => a.id)).Nodup := by
          rw [hids]; exact hnd
        have hany1 : (s.actionQueue.map
              (fun a => if a.id == t.id then { a with retryCount := a.retryCount + 1 } else a)).any
            (fun a => a.id == t.id) = true := by
          apply List.any_eq_true.mpr
          refine ⟨_, List.mem_map_of_mem _ ht, ?_⟩
          cases h : (t.id == t.id) <;> simp [h]
        have hq2 : (removeAction t.id { s with actionQueue := updateFirst (fun b => b.id == t.id) (fun b => { b with retryCount := b.retryCount + 1 }) s.actionQueue }).actionQueue
            = (s.actionQueue.map
                (fun a => if a.id == t.id then { a with retryCount := a.retryCount + 1 } else a)).filter
                  (fun b => !(b.id == t.id)) := by
          simp only [removeAction, hq1, hany1, if_true, storeData]
          exact removeFirst_id_eq_filter t.id _ hnd1
        have hq3 : (s.actionQueue.map
              (fun a => if a.id == t.id then { a with retryCount := a.retryCount + 1 } else a)).filter
                (fun b => !(b.id == t.id))
            = s.actionQueue.filter (fun b => !(b.id == t.id)) := by
          rw [List.filter_map]
          have hpg : ∀ b ∈ s.actionQueue,
              ((fun b => !(b.id == t.id)) ∘
                (fun a => if a.id == t.id then { a with retryCount := a.retryCount + 1 } else a)) b
              = (fun b => !(b.id == t.id)) b := by
            intro b _
            simp only [Function.comp]
            cases h : (b.id == t.id) <;> simp [h]
          rw [List.filter_congr hpg]
          have hgb : ∀ b ∈ s.actionQueue.filter (fun b => !(b.id == t.id)),
              (fun a => if a.id == t.id then { a with retryCount := a.retryCount + 1 } else a) b
              = b := by
            intro b hb
            have h1 := (List.mem_filter.mp hb).2
            cases h : (b.id == t.id)
            · simp [h]
            · rw [h] at h1; simp at h1
          rw [List.map_congr_left hgb]
          simp
        have hq4 : s.actionQueue.filter (fun b => !(b.id == t.id))
            = s.actionQueue.filterMap (fun b => if t.id == b.id then loopEntry ok b else some b) := by
          rw [filter_eq_filterMap_if]
          apply List.filterMap_congr
          intro b hb
          by_cases hbid : b.id = t.id
          · have hbt : b = t := eq_of_mem_id_nodup hnd hb ht hbid
            subst hbt
            simp [loopEntry, hok, hr]
          · have h1 : (b.id == t.id) = false := by simp [hbid]
            simp [h1, hne2 b hbid]
        exact ⟨hq2.trans (hq3.trans hq4), by simp [hok], by simp [errsOf, hok, hr], rfl,
          (removeAction_flags t.id _).1, (removeAction_flags t.id _).2⟩
      · have hstep : syncStep ok (s, n, errs, subs) t = ({ s with actionQueue := updateFirst (fun b => b.id == t.id) (fun b => { b with retryCount := b.retryCount + 1 }) s.actionQueue }, n, errs ++ [failMsg t msg], subs ++ [t]) := by
          simp only [syncStep, hok, hr, if_false]
        rw [hstep]
        have hq2 : s.actionQueue.map
              (fun a => if a.id == t.id then { a with retryCount := a.retryCount + 1 } else a)
            = s.actionQueue.filterMap (fun b => if t.id == b.id then loopEntry ok b else some b) := by
          rw [map_eq_filterMap_some]
          apply List.filterMap_congr
          intro b hb
          by_cases hbid : b.id = t.id
          · have hbt : b = t := eq_of_mem_id_nodup hnd hb ht hbid
            subst hbt
            simp [loopEntry, hok, hr]
          · have h1 : (b.id == t.id) = false := by simp [hbid]
            simp [h1, hne2 b hbid]
        exact ⟨hq1.trans hq2, by simp [hok], by simp [errsOf, hok, hr], rfl, rfl, rfl⟩

/-- `loopEntry` preserves the id of a kept entry. -/
theorem loopEntry_id (ok : OfflineAction → Option String) (b c : OfflineAction)
    (h : loopEntry ok b = some c) : c.id = b.id := by
  cases hok : ok b with
  | none =>
      simp [loopEntry, hok] at h
      rw [← h]
  | some m =>
      by_cases hr : b.retryCount + 1 ≥ 3
      · simp [loopEntry, hok, hr] at h
      · simp [loopEntry, hok, hr] at h
        rw [← h]

/-- Characterization of the whole drain loop: each todo entry (a pending
queue entry, ids pairwise distinct) is rewritten by `loopEntry`, all
other queue entries are kept, and the counter, error list and submission
trace accumulate entrywise in todo order. -/
theorem drainLoop_char (ok : OfflineAction → Option String) :
    ∀ (todo : List OfflineAction) (s : OfflineState) (n : Nat) (errs : List String)
      (subs : List OfflineAction),
      (s.actionQueue.map (fun a => a.id)).Nodup →
      (∀ t ∈ todo, t ∈ s.actionQueue) →
      (todo.map (fun a => a.id)).Nodup →
      (todo.foldl (syncStep ok) (s, n, errs, subs)).1.actionQueue
          = s.actionQueue.filterMap
              (fun b => if todo.any (fun t => t.id == b.id) then loopEntry ok b else some b)
        ∧ (todo.foldl (syncStep ok) (s, n, errs, subs)).2.1
            = n + (todo.filter (fun t => (ok t).isNone)).length
        ∧ (todo.foldl (syncStep ok) (s, n, errs, subs)).2.2.1 = errs ++ todo.flatMap (errsOf ok)
        ∧ (todo.foldl (syncStep ok) (s, n, errs, subs)).2.2.2 = subs ++ todo
        ∧ (todo.foldl (syncStep ok) (s, n, errs, subs)).1.syncInProgress = s.syncInProgress
        ∧ (todo.foldl (syncStep ok) (s, n, errs, subs)).1.isOnlineStatus = s.isOnlineStatus := by
  intro todo
  induction todo with
  | nil =>
      intro s n errs subs hnd hmem hndt
      simp
  | cons t rest ih =>
      intro s n errs subs hnd hmem hndt
      have ht : t ∈ s.actionQueue := hmem t (List.mem_cons_self t rest)
      simp only [List.map_cons, List.nodup_cons, List.mem_map] at hndt
      have hrest_ne : ∀ x ∈ rest, (x.id == t.id) = false := by
        intro x hx
        simp only [beq_eq_false_iff_ne, ne_eq]
        exact fun h => hndt.1 ⟨x, hx, h⟩
      obtain ⟨hsq, hsn, hserr, hssubs, hsip, hson⟩ :=
        syncStep_char ok s t n errs subs hnd ht
      have hF : ∀ b c : OfflineAction,
          (if t.id == b.id then loopEntry ok b else some c) = some c → True := fun _ _ _ => trivial
      have hidsub : List.Sublist
          (((syncStep ok (s, n, errs, subs) t).1.actionQueue).map (fun a => a.id))
          (s.actionQueue.map (fun a => a.id)) := by
        rw [hsq]
        apply filterMap_ids_sublist
        intro b c h
        by_cases hb : (t.id == b.id) = true
        · rw [if_pos hb] at h
          exact loopEntry_id ok b c h
        · rw [if_neg hb] at h
          injection h with h
          rw [← h]
      have hnd1 : (((syncStep ok (s, n, errs, subs) t).1.actionQueue).map (fun a => a.id)).Nodup :=
        hidsub.nodup hnd
      have hmem1 : ∀ r ∈ rest, r ∈ (syncStep ok (s, n, errs, subs) t).1.actionQueue := by
        intro r hr
        rw [hsq]
        apply List.mem_filterMap.mpr
        refine ⟨r, hmem r (List.mem_cons_of_mem t hr), ?_⟩
        have h1 : (t.id == r.id) = false := by
          simp only [beq_eq_false_iff_ne, ne_eq]
          intro h
          have := hrest_ne r hr
          simp [h] at this
        rw [if_neg (by simp [h1])]
      obtain ⟨ihq, ihn, iherr, ihsubs, ihip, ihon⟩ :=
        ih (syncStep ok (s, n, errs, subs) t).1 (syncStep ok (s, n, errs, subs) t).2.1
          (syncStep ok (s, n, errs, subs) t).2.2.1 (syncStep ok (s, n, errs, subs) t).2.2.2
          hnd1 hmem1 hndt.2
      have hcomb : ((syncStep ok (s, n, errs, subs) t).1.actionQueue).filterMap
            (fun b => if rest.any (fun x => x.id == b.id) then loopEntry ok b else some b)
          = s.actionQueue.filterMap
              (fun b => if (t :: rest).any (fun x => x.id == b.id) then loopEntry ok b else some b) := by
        rw [hsq, List.filterMap_filterMap]
        apply List.filterMap_congr
        intro b hb
        by_cases hbid : b.id = t.id
        · have hbt : b = t := eq_of_mem_id_nodup hnd hb ht hbid
          subst hbt
          have h1 : (b.id == b.id) = true := by simp
          simp only [List.any_cons, h1, Bool.true_or, if_true]
          cases hle : loopEntry ok b with
          | none => simp
          | some c =>
              have hcid : c.id = b.id := loopEntry_id ok b c hle
              have hany : rest.any (fun x => x.id == c.id) = false := by
                apply List.any_eq_false.mpr
                intro x hx
                rw [hcid]
                simp only [hrest_ne x hx]
                exact Bool.false_ne_true
              simp [Option.bind, hany]
        · have h1 : (t.id == b.id) = false := by
            simp only [beq_eq_false_iff_ne, ne_eq]
            exact fun h => hbid h.symm
          simp [h1, List.any_cons]
      refine ⟨?_, ?_, ?_, ?_, ?_, ?_⟩
      · exact ihq.trans hcomb
      · refine Eq.trans ihn ?_
        rw [hsn, List.filter_cons]
        by_cases h : (ok t).isNone <;> simp [h] <;> omega
      · refine Eq.trans iherr ?_
        rw [hserr]
        simp [List.append_assoc]
      · refine Eq.trans ihsubs ?_
        rw [hssubs]
        simp [List.append_assoc]
      · exact Eq.trans ihip hsip
      · exact Eq.trans ihon hson

/-- Reading back a key just written to the store. -/
theorem storageGet_storageSet_self (k : String) (v : StoredValue) (st : Storage) :
    storageGet k (storageSet k v st) = some v := by
  induction st with
  | nil => simp [storageSet, storageGet]
  | cons p rest ih =>
      obtain ⟨k2, w⟩ := p
      by_cases h : k2 = k
      · simp [storageSet, storageGet, h]
      · simp [storageSet, storageGet, h, ih]

/-- `drainEntry` preserves the id of a surviving entry. -/
theorem drainEntry_id (ok : OfflineAction → Option String) (b c : OfflineAction)
    (h : drainEntry ok b = some c) : c.id = b.id := by
  by_cases hsy : b.synced
  · simp [drainEntry, hsy] at h
  · cases hok : ok b with
    | none => simp [drainEntry, hsy, hok] at h
    | some m =>
        by_cases hr : b.retryCount + 1 ≥ 3
        · simp [drainEntry, hsy, hok, hr] at h
        · simp [drainEntry, hsy, hok, hr] at h
          rw [← h]

/-- Pushing a `filter` inside a `filterMap`. -/
theorem filterMap_then_filter {α β : Type} (f : α → Option β) (p : β → Bool) (l : List α) :
    (l.filterMap f).filter p
      = l.filterMap (fun a => match f a with
          | none => none
          | some b => if p b then some b else none) := by
  induction l with
  | nil => rfl
  | cons a as ih =>
      cases hfa : f a with
      | none => simp [List.filterMap_cons, hfa, ih]
      | some b =>
          by_cases hp : p b <;>
            simp [List.filterMap_cons, List.filter_cons, hfa, hp, ih]

/-- Draining the pending snapshot and then pruning synced entries acts on
the queue exactly as `drainEntry`, entry by entry. -/
theorem drain_prune_eq (ok : OfflineAction → Option String) (q : List OfflineAction)
    (hnd : (q.map (fun a => a.id)).Nodup) :
    (q.filterMap (fun b => if (q.filter (fun a => !a.synced)).any (fun t => t.id == b.id)
        then loopEntry ok b else some b)).filter (fun a => !a.synced)
      = q.filterMap (drainEntry ok) := by
  rw [filterMap_then_filter]
  apply List.filterMap_congr
  intro b hb
  by_cases hsy : b.synced = true
  · have hany : (q.filter (fun a => !a.synced)).any (fun t => t.id == b.id) = false := by
      apply List.any_eq_false.mpr
      intro x hx
      obtain ⟨hxq, hxs⟩ := List.mem_filter.mp hx
      intro hxb
      have hxbe : x = b := eq_of_mem_id_nodup hnd hxq hb (beq_iff_eq.mp hxb)
      rw [hxbe, hsy] at hxs
      simp at hxs
    rw [if_neg (by simp [hany])]
    simp [drainEntry, hsy]
  · have hsy0 : b.synced = false := by simpa using hsy
    have hbt : b ∈ q.filter (fun a => !a.synced) :=
      List.mem_filter.mpr ⟨hb, by simp [hsy0]⟩
    have hany : (q.filter (fun a => !a.synced)).any (fun t => t.id == b.id) = true :=
      List.any_eq_true.mpr ⟨b, hbt, by simp⟩
    rw [if_pos hany]
    cases hok : ok b with
    | none => simp [loopEntry, drainEntry, hok, hsy0]
    | some m =>
        by_cases hr : b.retryCount + 1 ≥ 3
        · simp [loopEntry, drainEntry, hok, hr, hsy0]
        · simp [loopEntry, drainEntry, hok, hr, hsy0]

/-- Full characterization of one successful-start `syncData` pass on a
queue with pairwise distinct ids: final queue, result object, submission
trace, flags, and the persisted queue blob. -/
theorem syncData_run (ok : OfflineAction → Option String) (now : Nat) (s : OfflineState)
    (hnd : (s.actionQueue.map (fun a => a.id)).Nodup)
    (hip : s.syncInProgress = false) (hon : s.isOnlineStatus = true) :
    (syncData ok now s).1.actionQueue = s.actionQueue.filterMap (drainEntry ok)
      ∧ (syncData ok now s).2.1.errors = passErrors ok s.actionQueue
      ∧ (syncData ok now s).2.1.syncedActions = passSynced ok s.actionQueue
      ∧ (syncData ok now s).2.1.success = (passErrors ok s.actionQueue).isEmpty
      ∧ (syncData ok now s).2.2 = s.actionQueue.filter (fun a => !a.synced)
      ∧ (syncData ok now s).1.syncInProgress = false
      ∧ (syncData ok now s).1.isOnlineStatus = true
      ∧ storageGet (storageKeyFor "actionQueue") (syncData ok now s).1.storage
          = some (.queueData (s.actionQueue.filterMap (drainEntry ok))) := by
  have hmemt : ∀ t ∈ s.actionQueue.filter (fun a => !a.synced),
      t ∈ ({ s with syncInProgress := true } : OfflineState).actionQueue :=
    fun t ht => (List.mem_filter.mp ht).1
  have hndt : ((s.actionQueue.filter (fun a => !a.synced)).map (fun a => a.id)).Nodup :=
    ((List.filter_sublist _).map _).nodup hnd
  obtain ⟨hq, hn, herr, hsubs, hip2, hon2⟩ :=
    drainLoop_char ok (s.actionQueue.filter (fun a => !a.synced))
      { s with syncInProgress := true } 0 [] [] hnd hmemt hndt
  simp only [hon] at hq hn herr hsubs hip2 hon2
  refine ⟨?_, ?_, ?_, ?_, ?_, ?_, ?_, ?_⟩
  · show (syncData ok now s).1.actionQueue = _
    simp only [syncData, hip, hon, Bool.not_true, Bool.false_eq_true, if_false, storeData]
    rw [hq]
    exact drain_prune_eq ok s.actionQueue hnd
  · simp only [syncData, hip, hon, Bool.not_true, Bool.false_eq_true, if_false]
    rw [herr]
    simp [passErrors]
  · simp only [syncData, hip, hon, Bool.not_true, Bool.false_eq_true, if_false]
    rw [hn]
    simp [passSynced]
  · simp only [syncData, hip, hon, Bool.not_true, Bool.false_eq_true, if_false]
    rw [herr]
    simp [passErrors]
  · simp only [syncData, hip, hon, Bool.not_true, Bool.false_eq_true, if_false]
    rw [hsubs]
    simp
  · simp only [syncData, hip, hon, Bool.not_true, Bool.false_eq_true, if_false, storeData]
  · simp only [syncData, hip, hon, Bool.not_true, Bool.false_eq_true, if_false, storeData]
    exact hon2
  · simp only [syncData, hip, hon, Bool.not_true, Bool.false_eq_true, if_false, storeData]
    rw [hq, drain_prune_eq ok s.actionQueue hnd]
    exact storageGet_storageSet_self _ _ _

/-- String append acts as list append on the underlying characters. -/
theorem data_append (s t : String) : (s ++ t).data = s.data ++ t.data := rfl

/-- A drain-failure message is never a drop message (they start with
different characters). -/
theorem failMsg_ne_dropMsg (b a : OfflineAction) (m : String) : failMsg b m ≠ dropMsg a := by
  intro h
  have h1 : (failMsg b m).data.head? = (dropMsg a).data.head? := by rw [h]
  have h2 : (failMsg b m).data.head? = some 'F' := rfl
  have h3 : (dropMsg a).data.head? = some 'A' := rfl
  rw [h2, h3] at h1
  simp at h1

/-- Drop messages identify the dropped action id. -/
theorem dropMsg_inj (a b : OfflineAction) (h : dropMsg a = dropMsg b) : a.id = b.id := by
  have h1 : "Action ".data ++ (a.id.data ++ " removed after 3 failed attempts".data)
      = "Action ".data ++ (b.id.data ++ " removed after 3 failed attempts".data) := by
    have h0 := congrArg String.data h
    simpa [dropMsg, data_append, List.append_assoc] using h0
  have h2 := List.append_cancel_left h1
  have h3 := List.append_cancel_right h2
  exact String.ext h3

/-- The iteration errors of an action with a different id never include
the drop message of `a`. -/
theorem count_drop_errsOf_ne (ok : OfflineAction → Option String) (b a : OfflineAction)
    (hne : ¬b.id = a.id) : (errsOf ok b).count (dropMsg a) = 0 := by
  cases hok : ok b with
  | none => simp [errsOf, hok]
  | some m =>
      have hfm : ¬failMsg b m = dropMsg a := failMsg_ne_dropMsg b a m
      have hdm : ¬dropMsg b = dropMsg a := fun h => hne (dropMsg_inj b a h)
      by_cases hr : b.retryCount + 1 ≥ 3 <;>
        simp [errsOf, hok, hr, List.count_cons, hfm, hdm]

/-- The iteration errors of a thrice-failed action with the id of `a`
include its drop message exactly once. -/
theorem count_drop_errsOf_eq (ok : OfflineAction → Option String) (b a : OfflineAction)
    (hid : b.id = a.id) (hsome : (ok b).isSome) (hr : b.retryCount + 1 ≥ 3) :
    (errsOf ok b).count (dropMsg a) = 1 := by
  obtain ⟨m, hok⟩ := Option.isSome_iff_exists.mp hsome
  have hfm : ¬failMsg b m = dropMsg a := failMsg_ne_dropMsg b a m
  have hdm : dropMsg b = dropMsg a := by simp [dropMsg, hid]
  simp [errsOf, hok, hr, List.count_cons, hfm, hdm]

/-- A flatMap has zero occurrences of `e` if every block does. -/
theorem count_flatMap_zero {α : Type} (f : α → List String) (e : String) (l : List α)
    (h : ∀ y ∈ l, (f y).count e = 0) : (l.flatMap f).count e = 0 := by
  induction l with
  | nil => simp
  | cons a as ih =>
      have h1 : (a :: as).flatMap f = f a ++ as.flatMap f := rfl
      rw [h1, List.count_append, h a (List.mem_cons_self a as),
        ih (fun y hy => h y (List.mem_cons_of_mem a hy))]

/-- A flatMap over a duplicate-free list has exactly one occurrence of
`e` when exactly one block contributes one occurrence. -/
theorem count_flatMap_one {α : Type} (f : α → List String) (e : String) (l : List α) (x : α)
    (hx : x ∈ l) (hnd : l.Nodup) (hcx : (f x).count e = 1)
    (hoth : ∀ y ∈ l, y ≠ x → (f y).count e = 0) : (l.flatMap f).count e = 1 := by
  induction l with
  | nil => cases hx
  | cons a as ih =>
      simp only [List.nodup_cons] at hnd
      have h1 : (a :: as).flatMap f = f a ++ as.flatMap f := rfl
      rw [h1, List.count_append]
      rcases List.mem_cons.mp hx with hax | hxas
      · subst hax
        rw [hcx, count_flatMap_zero f e as
          (fun y hy => hoth y (List.mem_cons_of_mem x hy) (fun hyx => hnd.1 (hyx ▸ hy)))]
      · have hane : a ≠ x := fun hax => hnd.1 (hax ▸ hxas)
        rw [hoth a (List.mem_cons_self a as) hane,
          ih hxas hnd.2 (fun y hy hyx => hoth y (List.mem_cons_of_mem a hy) hyx)]

/-- The ids surviving a full pass over `q` form a sublist of the ids of
`q`, so id-uniqueness is preserved by a pass. -/
theorem drain_nodup (ok : OfflineAction → Option String) (q : List OfflineAction)
    (hnd : (q.map (fun a => a.id)).Nodup) :
    ((q.filterMap (drainEntry ok)).map (fun a => a.id)).Nodup :=
  (filterMap_ids_sublist (drainEntry ok) q (fun b c h => drainEntry_id ok b c h)).nodup hnd

/-- The guard path of `syncData` when a pass is already running: nothing
changes and a distinct result is returned. -/
theorem syncData_inProgress (ok : OfflineAction → Option String) (now : Nat) (s : OfflineState)
    (h : s.syncInProgress = true) :
    syncData ok now s
      = (s, { success := false, syncedActions := 0, errors := ["Sync already in progress"] }, []) := by
  simp [syncData, h]

/-- The guard path of `syncData` when the device is offline (and no pass
is running): nothing changes and a distinct result is returned. -/
theorem syncData_offline (ok : OfflineAction → Option String) (now : Nat) (s : OfflineState)
    (h1 : s.syncInProgress = false) (h2 : s.isOnlineStatus = false) :
    syncData ok now s
      = (s, { success := false, syncedActions := 0, errors := ["Device is offline"] }, []) := by
  simp [syncData, h1, h2]

/-- The submission trace of the drain loop is exactly the todo list, for
any starting accumulator (every iteration calls `processAction`). -/
theorem drainLoop_subs (ok : OfflineAction → Option String) :
    ∀ (todo : List OfflineAction) (init : OfflineState × Nat × List String × List OfflineAction),
      (todo.foldl (syncStep ok) init).2.2.2 = init.2.2.2 ++ todo := by
  intro todo
  induction todo with
  | nil => intro init; simp
  | cons t rest ih =>
      intro init
      obtain ⟨s, n, errs, subs⟩ := init
      have h1 : (syncStep ok (s, n, errs, subs) t).2.2.2 = subs ++ [t] := by
        cases hok : ok t with
        | none => simp [syncStep, hok]
        | some m => by_cases hr : t.retryCount + 1 ≥ 3 <;> simp [syncStep, hok, hr]
      calc ((t :: rest).foldl (syncStep ok) (s, n, errs, subs)).2.2.2
          = (rest.foldl (syncStep ok) (syncStep ok (s, n, errs, subs) t)).2.2.2 := rfl
        _ = (syncStep ok (s, n, errs, subs) t).2.2.2 ++ rest := ih _
        _ = (subs ++ [t]) ++ rest := by rw [h1]
        _ = subs ++ (t :: rest) := by simp

/-- The submission trace of a `syncData` pass that starts (no pass in
progress, device online) is the pending snapshot of the queue, in queue
order; no id-uniqueness assumption is needed. -/
theorem syncData_subs (ok : OfflineAction → Option String) (now : Nat) (s : OfflineState)
    (hip : s.syncInProgress = false) (hon : s.isOnlineStatus = true) :
    (syncData ok now s).2.2 = s.actionQueue.filter (fun a => !a.synced) := by
  simp only [syncData, hip, hon, Bool.not_true, Bool.false_eq_true, if_false]
  exact (drainLoop_subs ok _ _).trans (by simp)

/-- Invariant: pairwise distinct queue ids, none equal to `i`. -/
def idGone (i : String) (s : OfflineState) : Prop :=
  (s.actionQueue.map (fun a => a.id)).Nodup ∧ ∀ b ∈ s.actionQueue, b.id ≠ i

/-- A `syncData` pass from any state preserves `idGone` and never
submits an action whose id is absent from the queue. -/
theorem syncData_preserves_idGone (ok : OfflineAction → Option String) (now : Nat) (i : String)
    (s : OfflineState) (h : idGone i s) :
    idGone i (syncData ok now s).1 ∧ ∀ b ∈ (syncData ok now s).2.2, b.id ≠ i := by
  obtain ⟨hnd, hab⟩ := h
  by_cases hip : s.syncInProgress = true
  · rw [syncData_inProgress ok now s hip]
    exact ⟨⟨hnd, hab⟩, by simp⟩
  · have hip0 : s.syncInProgress = false := by simpa using hip
    by_cases hon : s.isOnlineStatus = true
    · obtain ⟨hq, _, _, _, hsubs, _, _, _⟩ := syncData_run ok now s hnd hip0 hon
      refine ⟨⟨?_, ?_⟩, ?_⟩
      · rw [hq]; exact drain_nodup ok s.actionQueue hnd
      · intro b hb
        rw [hq] at hb
        obtain ⟨c, hc, hdc⟩ := List.mem_filterMap.mp hb
        rw [drainEntry_id ok c b hdc]
        exact hab c hc
      · intro b hb
        rw [hsubs] at hb
        exact hab b (List.mem_filter.mp hb).1
    · have hon0 : s.isOnlineStatus = false := by simpa using hon
      rw [syncData_offline ok now s hip0 hon0]
      exact ⟨⟨hnd, hab⟩, by simp⟩

/-- Any sequence of later passes preserves `idGone`. -/
theorem runPasses_preserves_idGone (i : String) :
    ∀ (passes : List ((OfflineAction → Option String) × Nat)) (s : OfflineState),
      idGone i s → idGone i (runPasses passes s) := by
  intro passes
  induction passes with
  | nil => intro s h; exact h
  | cons p rest ih =>
      intro s h
      obtain ⟨ok, now⟩ := p
      exact ih _ (syncData_preserves_idGone ok now i s h).1

/-- Lookup distributes over append of association lists. -/
theorem lookupField_append (k : String) (xs ys : List (String × String)) :
    lookupField k (xs ++ ys)
      = match lookupField k xs with
        | some v => some v
        | none => lookupField k ys := by
  induction xs with
  | nil => simp [lookupField]
  | cons p rest ih =>
      obtain ⟨k2, v⟩ := p
      by_cases h : k2 = k <;> simp [lookupField, h, ih]

/-- Lookup in the local fields overridden by the server fields. -/
theorem lookupField_map_override (k : String) (l srv : List (String × String)) :
    lookupField k (l.map (fun p => match lookupField p.1 srv with
        | some v => (p.1, v)
        | none => p))
      = match lookupField k l with
        | some v => some (match lookupField k srv with | some w => w | none => v)
        | none => none := by
  induction l with
  | nil => simp [lookupField]
  | cons p rest ih =>
      obtain ⟨k2, v⟩ := p
      by_cases h : k2 = k
      · subst h
        cases hs : lookupField k2 srv <;> simp [lookupField, hs]
      · cases hs : lookupField k2 srv <;> simp [lookupField, h, hs, ih]

/-- Lookup in a list filtered by a predicate on the key. -/
theorem lookupField_filter_keys (k : String) (srv : List (String × String))
    (keyPred : String → Bool) :
    lookupField k (srv.filter (fun p => keyPred p.1))
      = if keyPred k then lookupField k srv else none := by
  induction srv with
  | nil => simp [lookupField]
  | cons p rest ih =>
      obtain ⟨k2, v⟩ := p
      by_cases h : k2 = k
      · subst h
        by_cases hp : keyPred k2 <;> simp [lookupField, List.filter_cons, hp, ih]
      · by_cases hp : keyPred k2 <;> simp [lookupField, List.filter_cons, h, hp, ih]

/-- The object-spread merge, observed through lookup: the server value
when the server has the key, else the local value. -/
theorem lookupField_mergeFields (k : String) (l srv : List (String × String)) :
    lookupField k (mergeFields l srv)
      = match lookupField k srv with
        | some v => some v
        | none => lookupField k l := by
  unfold mergeFields
  rw [lookupField_append, lookupField_map_override,
    lookupField_filter_keys k srv (fun k2 => (lookupField k2 l).isNone)]
  cases hl : lookupField k l <;> cases hs : lookupField k srv <;> simp [hl, hs]

/-!
Claim theorems.  Each claim of the specification gets one theorem (with
a counterexample first when the claim fails on the code as stated).
-/

/-- A local record with a truthy id, no timestamp, and one extra field. -/
def c2local : EntityRecord :=
  { id := some "L", updated_at := none, fields := [("name", "local"), ("extra", "x")] }

/-- A server record with a truthy id, a timestamp, and one field. -/
def c2server : EntityRecord :=
  { id := some "S", updated_at := some 5, fields := [("name", "server")] }

/-- C2 counterexample: with both sides present and the local timestamp
missing, the claim says the server version is returned; the code instead
returns the object-spread merge, which keeps the local id and the
local-only field, so the result is not the server version. -/
theorem c2_counterexample :
    resolveConflicts (some c2local) (some c2server)
        = some { id := some "L", updated_at := some 5,
                 fields := [("name", "server"), ("extra", "x")] }
      ∧ resolveConflicts (some c2local) (some c2server) ≠ some c2server := by
  constructor <;> decide

/-- C2 (amended): resolveConflicts is a total function of its two
arguments; an absent side loses to the present side (both absent gives
absent); when both sides carry timestamps the strictly newer record wins
whole (server on ties); but when both sides are present and either
timestamp is missing the result is not the server version: it is the
object-spread merge of the two records in which a field present on the
server takes precedence, a field only present locally survives, the
timestamp is the server one when present (else the local one), and the
identifier is the local one when truthy, else the server one. -/
theorem c2_resolve_cases (l srv : EntityRecord) (lt st : Nat) :
    resolveConflicts none none = none
      ∧ resolveConflicts none (some srv) = some srv
      ∧ resolveConflicts (some l) none = some l
      ∧ (l.updated_at = some lt → srv.updated_at = some st → lt > st →
          resolveConflicts (some l) (some srv) = some l)
      ∧ (l.updated_at = some lt → srv.updated_at = some st → ¬lt > st →
          resolveConflicts (some l) (some srv) = some srv)
      ∧ ((l.updated_at = none ∨ srv.updated_at = none) →
          resolveConflicts (some l) (some srv)
              = some { id := jsOrId l.id srv.id,
                       updated_at := match srv.updated_at with
                         | some t => some t
                         | none => l.updated_at,
                       fields := mergeFields l.fields srv.fields }
            ∧ ∀ k, lookupField k (mergeFields l.fields srv.fields)
                = match lookupField k srv.fields with
                  | some v => some v
                  | none => lookupField k l.fields) := by
  refine ⟨rfl, rfl, rfl, ?_, ?_, ?_⟩
  · intro h1 h2 h3
    simp [resolveConflicts, h1, h2, h3]
  · intro h1 h2 h3
    simp [resolveConflicts, h1, h2, h3]
  · intro h
    refine ⟨?_, fun k => lookupField_mergeFields k l.fields srv.fields⟩
    rcases h with h | h
    · cases hsu : srv.updated_at <;> simp [resolveConflicts, h, hsu]
    · cases hlu : l.updated_at <;> simp [resolveConflicts, h, hlu]

/-- C2 witness: the amended merge branch applied at the concrete
records. -/
theorem c2_witness :
    (c2local.updated_at = none ∨ c2server.updated_at = none)
      ∧ resolveConflicts (some c2local) (some c2server)
          = some { id := some "L", updated_at := some 5,
                   fields := [("name", "server"), ("extra", "x")] } := by
  refine ⟨Or.inl rfl, ?_⟩
  have h := ((c2_resolve_cases c2local c2server 0 0).2.2.2.2.2 (Or.inl rfl)).1
  rw [h]
  decide

/-- A local record whose timestamp is strictly later than the server
one, with a different id. -/
def c3local : EntityRecord := { id := some "L", updated_at := some 10, fields := [] }

/-- A server record with an earlier timestamp. -/
def c3server : EntityRecord := { id := some "S", updated_at := some 5, fields := [] }

/-- C3 counterexample: the server version exists, but the local version
wins by its later timestamp and is returned whole, so the identifier of
the result is the local id, not the server id. -/
theorem c3_counterexample :
    resolveConflicts (some c3local) (some c3server) = some c3local
      ∧ ¬(resolveConflicts (some c3local) (some c3server)).bind EntityRecord.id = c3server.id := by
  constructor <;> decide

/-- C3 (amended): when the server version exists, the identifier of the
result equals the server identifier exactly in the cases where the
server version wins (local side absent, or both timestamps present with
the local one not greater); when the local version wins by a strictly
later timestamp the result identifier is the local one, and in the
merge branch (a timestamp missing) the identifier is the local one when
truthy, else the server one. -/
theorem c3_result_id (l srv : EntityRecord) (lt st : Nat) :
    (resolveConflicts none (some srv)).bind EntityRecord.id = srv.id
      ∧ (l.updated_at = some lt → srv.updated_at = some st → ¬lt > st →
          (resolveConflicts (some l) (some srv)).bind EntityRecord.id = srv.id)
      ∧ (l.updated_at = some lt → srv.updated_at = some st → lt > st →
          (resolveConflicts (some l) (some srv)).bind EntityRecord.id = l.id)
      ∧ ((l.updated_at = none ∨ srv.updated_at = none) →
          (resolveConflicts (some l) (some srv)).bind EntityRecord.id = jsOrId l.id srv.id) := by
  refine ⟨rfl, ?_, ?_, ?_⟩
  · intro h1 h2 h3
    simp [resolveConflicts, h1, h2, h3]
  · intro h1 h2 h3
    simp [resolveConflicts, h1, h2, h3]
  · intro h
    rcases h with h | h
    · cases hsu : srv.updated_at <;> simp [resolveConflicts, h, hsu, EntityRecord.id]
    · cases hlu : l.updated_at <;> simp [resolveConflicts, h, hlu, EntityRecord.id]

/-- C3 witness: the local-wins branch of the amended claim at the
concrete records. -/
theorem c3_witness :
    c3local.updated_at = some 10 ∧ c3server.updated_at = some 5 ∧ 10 > 5
      ∧ (resolveConflicts (some c3local) (some c3server)).bind EntityRecord.id = c3local.id :=
  ⟨rfl, rfl, by omega,
    (c3_result_id c3local c3server 10 5).2.2.1 rfl rfl (by omega)⟩

/-- A sample pending action used by the concrete witness states. -/
def act1 : OfflineAction :=
  { id := "a1", timestamp := 0, type := "CREATE", entity := "plot", entityId := "p1",
    payload := "x", synced := false, retryCount := 0 }

/-- C4: invoking `syncData` while a pass is already in progress is
rejected immediately with the distinct already-in-progress failure
result (success false, zero synced actions), nothing is submitted to
the remote service, and the entire state — queue, store and flags — is
left unchanged. -/
theorem c4_sync_in_progress_rejected (ok : OfflineAction → Option String) (now : Nat)
    (s : OfflineState) (h : s.syncInProgress = true) :
    (syncData ok now s).1 = s
      ∧ (syncData ok now s).2.1
          = { success := false, syncedActions := 0, errors := ["Sync already in progress"] }
      ∧ (syncData ok now s).2.2 = [] := by
  rw [syncData_inProgress ok now s h]
  exact ⟨rfl, rfl, rfl⟩

/-- A state with a pass already in progress and a pending action. -/
def c4s : OfflineState :=
  { storage := [], actionQueue := [act1], syncInProgress := true, isOnlineStatus := true }

/-- C4 witness: the rejection at a concrete in-progress state. -/
theorem c4_witness :
    c4s.syncInProgress = true
      ∧ (syncData (fun _ => none) 0 c4s).1 = c4s
      ∧ (syncData (fun _ => none) 0 c4s).2.1
          = { success := false, syncedActions := 0, errors := ["Sync already in progress"] }
      ∧ (syncData (fun _ => none) 0 c4s).2.2 = [] :=
  ⟨rfl, c4_sync_in_progress_rejected (fun _ => none) 0 c4s rfl⟩

/-- The concrete caller input used by the C7 counterexample. -/
def c7inp : ActionInput :=
  { type := "CREATE", entity := "plot", entityId := "p1", payload := "x" }

/-- An empty offline state (offline, so the deferred auto-sync in
`queueAction` is not even scheduled). -/
def c7s : OfflineState :=
  { storage := [], actionQueue := [], syncInProgress := false, isOnlineStatus := false }

/-- C7 counterexample: `queueAction` resolves with no value
(`Promise<void>`), so the generated action id `a1` is not returned to
the caller, contrary to the claim. -/
theorem c7_counterexample :
    (queueAction c7inp "a1" 5 c7s).2 = none
      ∧ ¬(queueAction c7inp "a1" 5 c7s).2 = some "a1" := by
  constructor <;> decide

/-- C7 (amended): `queueAction` appends the new action at the tail of
the queue, initialised with synced false, retryCount 0 and the current
timestamp, and persists the updated queue to the store before
completing; but it returns no value (the promise resolves with
undefined), not the generated action id. -/
theorem c7_queueAction (inp : ActionInput) (newId : String) (now : Nat) (s : OfflineState) :
    (queueAction inp newId now s).1.actionQueue = s.actionQueue ++ [{ id := newId, timestamp := now, type := inp.type, entity := inp.entity, entityId := inp.entityId, payload := inp.payload, synced := false, retryCount := 0 }]
      ∧ storageGet (storageKeyFor "actionQueue") (queueAction inp newId now s).1.storage
          = some (.queueData (queueAction inp newId now s).1.actionQueue)
      ∧ (queueAction inp newId now s).2 = none := by
  refine ⟨rfl, ?_, rfl⟩
  exact storageGet_storageSet_self _ _ _

/-- C8 counterexample state: device offline while a pass is marked in
progress (reachable: the flag is held across the awaits of a running
pass, and connectivity can drop meanwhile). -/
def c8s : OfflineState :=
  { storage := [], actionQueue := [act1], syncInProgress := true, isOnlineStatus := false }

/-- C8 counterexample: with the device offline but a pass in progress,
`syncData` answers with the already-in-progress error, not with the
"Device is offline" error the claim promises for every offline call
(the in-progress guard is checked first). -/
theorem c8_counterexample :
    c8s.isOnlineStatus = false
      ∧ (syncData (fun _ => none) 0 c8s).2.1.errors = ["Sync already in progress"]
      ∧ ¬"Device is offline" ∈ (syncData (fun _ => none) 0 c8s).2.1.errors := by
  refine ⟨rfl, rfl, ?_⟩
  decide

/-- C8 (amended): if the device is offline and no pass is already in
progress, `syncData` cannot begin a pass: it returns the failure result
(success false, zero synced actions, the "Device is offline" error),
nothing is submitted, and the whole state — queue and store — is left
untouched for a future attempt. -/
theorem c8_offline_rejected (ok : OfflineAction → Option String) (now : Nat)
    (s : OfflineState) (hip : s.syncInProgress = false) (hoff : s.isOnlineStatus = false) :
    (syncData ok now s).1 = s
      ∧ (syncData ok now s).2.1
          = { success := false, syncedActions := 0, errors := ["Device is offline"] }
      ∧ (syncData ok now s).2.2 = [] := by
  rw [syncData_offline ok now s hip hoff]
  exact ⟨rfl, rfl, rfl⟩

/-- An offline idle state holding one pending action. -/
def c8w : OfflineState :=
  { storage := [], actionQueue := [act1], syncInProgress := false, isOnlineStatus := false }

/-- C8 witness: the offline rejection at a concrete state. -/
theorem c8_witness :
    c8w.syncInProgress = false ∧ c8w.isOnlineStatus = false
      ∧ (syncData (fun _ => none) 0 c8w).1 = c8w
      ∧ (syncData (fun _ => none) 0 c8w).2.1
          = { success := false, syncedActions := 0, errors := ["Device is offline"] }
      ∧ (syncData (fun _ => none) 0 c8w).2.2 = [] :=
  ⟨rfl, rfl, c8_offline_rejected (fun _ => none) 0 c8w rfl rfl⟩

/-- C9: `markActionSynced` and `removeAction` on an id that is not in
the queue are silent no-ops: no error, no persistence write, and the
state (in-memory queue and persisted store alike) is returned entirely
unchanged. -/
theorem c9_missing_id_noop (actionId : String) (s : OfflineState)
    (h : ∀ b ∈ s.actionQueue, b.id ≠ actionId) :
    markActionSynced actionId s = s ∧ removeAction actionId s = s := by
  have hany : s.actionQueue.any (fun a => a.id == actionId) = false := by
    apply List.any_eq_false.mpr
    intro x hx
    simp [h x hx]
  constructor
  · simp [markActionSynced, hany]
  · simp [removeAction, hany]

/-- A state with one queued action, used to exercise the no-op case on
a missing id. -/
def c9s : OfflineState :=
  { storage := [(storageKeyFor "actionQueue", .queueData [act1])],
    actionQueue := [act1], syncInProgress := false, isOnlineStatus := true }

/-- C9 witness: the no-ops at a concrete state and an absent id. -/
theorem c9_witness :
    (∀ b ∈ c9s.actionQueue, b.id ≠ "zz")
      ∧ markActionSynced "zz" c9s = c9s ∧ removeAction "zz" c9s = c9s :=
  ⟨by decide, (c9_missing_id_noop "zz" c9s (by decide)).1,
    (c9_missing_id_noop "zz" c9s (by decide)).2⟩

/-- C10: when a network status change is delivered, every registered
callback is invoked, in registration order: the outcome trace has one
entry per callback and the k-th entry is exactly the k-th callback's
own outcome, so a callback that throws (its exception is caught and
recorded) neither prevents any later callback from being notified nor
propagates to the engine, which is total here by construction. -/
theorem c10_notify_all (isOnline : Bool) (cbs : List (Bool → Except String Unit)) (k : Nat) :
    (notifyNetworkChange isOnline cbs).length = cbs.length
      ∧ (notifyNetworkChange isOnline cbs).get? k = (cbs.get? k).map (cbOutcome isOnline) := by
  induction cbs generalizing k with
  | nil => simp [notifyNetworkChange]
  | cons cb rest ih =>
      refine ⟨?_, ?_⟩
      · simpa [notifyNetworkChange] using (ih 0).1
      · cases k with
        | zero => simp [notifyNetworkChange]
        | succ k2 => simpa [notifyNetworkChange] using (ih k2).2

/-- C5: in every drain pass on every queue state, only actions whose
synced flag is false are submitted to the remote service (an action
already marked synced is never re-submitted), and once the pass
completes all synced actions are pruned: the final queue carries no
synced action and it is exactly what is persisted under the queue key
of the durable store. -/
theorem c5_at_most_once (ok : OfflineAction → Option String) (now : Nat) (s : OfflineState)
    (hip : s.syncInProgress = false) (hon : s.isOnlineStatus = true) :
    (∀ b ∈ (syncData ok now s).2.2, b.synced = false)
      ∧ (∀ b ∈ (syncData ok now s).1.actionQueue, b.synced = false)
      ∧ storageGet (storageKeyFor "actionQueue") (syncData ok now s).1.storage
          = some (.queueData (syncData ok now s).1.actionQueue) := by
  refine ⟨?_, ?_, ?_⟩
  · intro b hb
    rw [syncData_subs ok now s hip hon] at hb
    simpa using (List.mem_filter.mp hb).2
  · intro b hb
    simp only [syncData, hip, hon, Bool.not_true, Bool.false_eq_true, if_false, storeData] at hb
    simpa using (List.mem_filter.mp hb).2
  · simp only [syncData, hip, hon, Bool.not_true, Bool.false_eq_true, if_false, storeData]
    exact storageGet_storageSet_self _ _ _

/-- An already-synced action awaiting pruning. -/
def act2 : OfflineAction :=
  { id := "a2", timestamp := 0, type := "UPDATE", entity := "crop", entityId := "c1",
    payload := "y", synced := true, retryCount := 0 }

/-- A queue holding one synced and one pending action. -/
def c5s : OfflineState :=
  { storage := [], actionQueue := [act2, act1], syncInProgress := false, isOnlineStatus := true }

/-- C5 witness: the persisted pruned queue at a concrete state. -/
theorem c5_witness :
    c5s.syncInProgress = false ∧ c5s.isOnlineStatus = true
      ∧ storageGet (storageKeyFor "actionQueue") (syncData (fun _ => none) 7 c5s).1.storage
          = some (.queueData (syncData (fun _ => none) 7 c5s).1.actionQueue) :=
  ⟨rfl, rfl, (c5_at_most_once (fun _ => none) 7 c5s rfl rfl).2.2⟩

/-- C6: enqueueing appends at the tail of the queue, and a drain pass
submits exactly the pending actions of the queue, front to back, in
queue order — so for any entity id the actions on that entity are
submitted in enqueue order (the projection of the submission trace onto
an entity id equals the projection of the pending queue onto it). -/
theorem c6_fifo_order (inp : ActionInput) (newId : String) (now0 : Nat)
    (ok : OfflineAction → Option String) (now : Nat) (s : OfflineState) (e : String)
    (hip : s.syncInProgress = false) (hon : s.isOnlineStatus = true) :
    (queueAction inp newId now0 s).1.actionQueue = s.actionQueue ++ [{ id := newId, timestamp := now0, type := inp.type, entity := inp.entity, entityId := inp.entityId, payload := inp.payload, synced := false, retryCount := 0 }]
      ∧ (syncData ok now s).2.2 = s.actionQueue.filter (fun a => !a.synced)
      ∧ ((syncData ok now s).2.2).filter (fun a => a.entityId == e)
          = (s.actionQueue.filter (fun a => !a.synced)).filter (fun a => a.entityId == e) := by
  refine ⟨rfl, syncData_subs ok now s hip hon, ?_⟩
  rw [syncData_subs ok now s hip hon]

/-- First action on entity p9. -/
def c6a : OfflineAction :=
  { id := "b1", timestamp := 1, type := "CREATE", entity := "plot", entityId := "p9",
    payload := "x", synced := false, retryCount := 0 }

/-- Second action on entity p9, enqueued after the first. -/
def c6b : OfflineAction :=
  { id := "b2", timestamp := 2, type := "UPDATE", entity := "plot", entityId := "p9",
    payload := "y", synced := false, retryCount := 0 }

/-- A queue with two pending actions on the same entity, in enqueue
order. -/
def c6s : OfflineState :=
  { storage := [], actionQueue := [c6a, c6b], syncInProgress := false, isOnlineStatus := true }

/-- C6 witness: the submission trace at a concrete two-action queue is
the queue itself, in order, also when projected onto the shared entity
id. -/
theorem c6_witness :
    c6s.syncInProgress = false ∧ c6s.isOnlineStatus = true
      ∧ (syncData (fun _ => none) 9 c6s).2.2 = [c6a, c6b]
      ∧ ((syncData (fun _ => none) 9 c6s).2.2).filter (fun a => a.entityId == "p9")
          = [c6a, c6b] := by
  have h := c6_fifo_order c7inp "z" 0 (fun _ => none) 9 c6s "p9" rfl rfl
  refine ⟨rfl, rfl, ?_, ?_⟩
  · rw [h.2.1]
    decide
  · rw [h.2.2]
    decide

/-- A pending action whose remote call throws and whose bumped counter
stays below the ceiling survives the pass with the bumped counter. -/
theorem drainEntry_fail_keep (ok : OfflineAction → Option String) (b : OfflineAction)
    (hsy : b.synced = false) (hm : (ok b).isSome) (hr : ¬b.retryCount + 1 ≥ 3) :
    drainEntry ok b = some { b with retryCount := b.retryCount + 1 } := by
  obtain ⟨m, hm2⟩ := Option.isSome_iff_exists.mp hm
  simp [drainEntry, hsy, hm2, hr]

/-- A pending action whose remote call throws with the bumped counter at
the ceiling is dropped by the pass. -/
theorem drainEntry_fail_drop (ok : OfflineAction → Option String) (b : OfflineAction)
    (hsy : b.synced = false) (hm : (ok b).isSome) (hr : b.retryCount + 1 ≥ 3) :
    drainEntry ok b = none := by
  obtain ⟨m, hm2⟩ := Option.isSome_iff_exists.mp hm
  simp [drainEntry, hsy, hm2, hr]

/-- C1: take a pending action `a` with a fresh retry counter in a queue
whose ids are pairwise distinct, and suppose its remote application
fails on every attempt (the oracle of each pass throws for anything
with its id).  Then each failed attempt increments its retryCount: the
first pass leaves it queued with retryCount 1 and the second with
retryCount 2; the third failed attempt makes the counter reach the
ceiling 3, whereupon the pass removes it from the queue and its
explanatory drop error appears exactly once in that pass's error list;
and nothing with its id is ever submitted to the remote service again
in any later pass. -/
theorem c1_bounded_retry (s : OfflineState) (a : OfflineAction)
    (ok1 ok2 ok3 ok4 : OfflineAction → Option String) (n1 n2 n3 n4 : Nat)
    (passes : List ((OfflineAction → Option String) × Nat))
    (s1 s2 s3 : OfflineState)
    (hnd : (s.actionQueue.map (fun x => x.id)).Nodup)
    (hip : s.syncInProgress = false) (hon : s.isOnlineStatus = true)
    (ha : a ∈ s.actionQueue) (hsy : a.synced = false) (hrc : a.retryCount = 0)
    (hf1 : ∀ b, b.id = a.id → (ok1 b).isSome)
    (hf2 : ∀ b, b.id = a.id → (ok2 b).isSome)
    (hf3 : ∀ b, b.id = a.id → (ok3 b).isSome)
    (hs1 : s1 = (syncData ok1 n1 s).1)
    (hs2 : s2 = (syncData ok2 n2 s1).1)
    (hs3 : s3 = (syncData ok3 n3 s2).1) :
    { a with retryCount := 1 } ∈ s1.actionQueue
      ∧ { a with retryCount := 2 } ∈ s2.actionQueue
      ∧ (∀ b ∈ s3.actionQueue, b.id ≠ a.id)
      ∧ ((syncData ok3 n3 s2).2.1.errors).count (dropMsg a) = 1
      ∧ (∀ b ∈ (syncData ok4 n4 (runPasses passes s3)).2.2, b.id ≠ a.id) := by
  subst hs1
  subst hs2
  subst hs3
  obtain ⟨hq1, _, _, _, _, hip1, hon1, _⟩ := syncData_run ok1 n1 s hnd hip hon
  have hde1 : drainEntry ok1 a = some { a with retryCount := 1 } := by
    have h := drainEntry_fail_keep ok1 a hsy (hf1 a rfl) (by rw [hrc]; decide)
    rw [hrc] at h
    simpa using h
  have hmem1 : { a with retryCount := 1 } ∈ (syncData ok1 n1 s).1.actionQueue := by
    rw [hq1]
    exact List.mem_filterMap.mpr ⟨a, ha, hde1⟩
  have hnd1 : ((syncData ok1 n1 s).1.actionQueue.map (fun x => x.id)).Nodup := by
    rw [hq1]
    exact drain_nodup ok1 _ hnd
  obtain ⟨hq2, _, _, _, _, hip2, hon2, _⟩ :=
    syncData_run ok2 n2 (syncData ok1 n1 s).1 hnd1 hip1 hon1
  have hde2 : drainEntry ok2 { a with retryCount := 1 } = some { a with retryCount := 2 } := by
    exact drainEntry_fail_keep ok2 { a with retryCount := 1 } hsy
      (hf2 { a with retryCount := 1 } rfl) ((by decide : ¬(3 : Nat) ≤ 2))
  have hmem2 : { a with retryCount := 2 }
      ∈ (syncData ok2 n2 (syncData ok1 n1 s).1).1.actionQueue := by
    rw [hq2]
    exact List.mem_filterMap.mpr ⟨{ a with retryCount := 1 }, hmem1, hde2⟩
  have hnd2 : ((syncData ok2 n2 (syncData ok1 n1 s).1).1.actionQueue.map
      (fun x => x.id)).Nodup := by
    rw [hq2]
    exact drain_nodup ok2 _ hnd1
  obtain ⟨hq3, herr3, _, _, _, _, _, _⟩ :=
    syncData_run ok3 n3 (syncData ok2 n2 (syncData ok1 n1 s).1).1 hnd2 hip2 hon2
  have hde3 : drainEntry ok3 { a with retryCount := 2 } = none := by
    exact drainEntry_fail_drop ok3 { a with retryCount := 2 } hsy
      (hf3 { a with retryCount := 2 } rfl) (Nat.le_refl 3)
  have hgone3 : ∀ b ∈ (syncData ok3 n3 (syncData ok2 n2 (syncData ok1 n1 s).1).1).1.actionQueue,
      b.id ≠ a.id := by
    intro b hb hbid
    rw [hq3] at hb
    obtain ⟨c, hc, hdc⟩ := List.mem_filterMap.mp hb
    have hcid : c.id = b.id := (drainEntry_id ok3 c b hdc).symm
    have hceq : c = { a with retryCount := 2 } :=
      eq_of_mem_id_nodup hnd2 hc hmem2 (by rw [hcid, hbid])
    rw [hceq, hde3] at hdc
    exact Option.noConfusion hdc
  refine ⟨hmem1, hmem2, hgone3, ?_, ?_⟩
  · rw [herr3]
    unfold passErrors
    apply count_flatMap_one (errsOf ok3) (dropMsg a) _ { a with retryCount := 2 }
    · exact List.mem_filter.mpr ⟨hmem2, by simp [hsy]⟩
    · exact List.Nodup.of_map (fun x => x.id)
        (((List.filter_sublist _).map _).nodup hnd2)
    · exact count_drop_errsOf_eq ok3 { a with retryCount := 2 } a rfl
        (hf3 { a with retryCount := 2 } rfl) (Nat.le_refl 3)
    · intro y hy hyne
      apply count_drop_errsOf_ne
      intro hyid
      exact hyne (eq_of_mem_id_nodup hnd2 (List.mem_filter.mp hy).1 hmem2 hyid)
  · have hidg3 : idGone a.id (syncData ok3 n3 (syncData ok2 n2 (syncData ok1 n1 s).1).1).1 := by
      refine ⟨?_, hgone3⟩
      rw [hq3]
      exact drain_nodup ok3 _ hnd2
    exact (syncData_preserves_idGone ok4 n4 a.id _
      (runPasses_preserves_idGone a.id passes _ hidg3)).2

/-- A one-action queue in an idle online state, used to exercise the
bounded-retry life cycle concretely. -/
def c1s : OfflineState :=
  { storage := [], actionQueue := [act1], syncInProgress := false, isOnlineStatus := true }

/-- C1 witness: with a remote that always throws, the concrete action
survives the first two passes with counters 1 and 2 and its drop error
is reported exactly once by the third pass. -/
theorem c1_witness :
    ((fun (_ : OfflineAction) => (some "boom" : Option String)) act1).isSome = true
      ∧ { act1 with retryCount := 1 }
          ∈ (syncData (fun _ => some "boom") 1 c1s).1.actionQueue
      ∧ { act1 with retryCount := 2 }
          ∈ (syncData (fun _ => some "boom") 2 (syncData (fun _ => some "boom") 1 c1s).1).1.actionQueue
      ∧ ((syncData (fun _ => some "boom") 3 (syncData (fun _ => some "boom") 2 (syncData (fun _ => some "boom") 1 c1s).1).1).2.1.errors).count (dropMsg act1) = 1 := by
  obtain ⟨h1, h2, h3, h4, h5⟩ :=
    c1_bounded_retry c1s act1 (fun _ => some "boom") (fun _ => some "boom")
      (fun _ => some "boom") (fun _ => none) 1 2 3 4 [] _ _ _
      (by decide) rfl rfl (by decide) rfl rfl
      (fun b hb => rfl) (fun b hb => rfl) (fun b hb => rfl) rfl rfl rfl
  exact ⟨rfl, h1, h2, h4⟩
